import Mathlib

/-!
Shallow embedding of the FormSG conditional logic evaluation engine
(the `logic` utility module: condition evaluation, logic grouping,
visibility resolution and the prevent-submit gate), together with
proofs of specification claims about it.

Identifiers follow the source where Lean allows it.  JavaScript runtime
behaviour that the source relies on (`String(...)`, `Number(...)`,
lodash `isEmpty` / `isEqual`, `Array.prototype.sort`) is embedded as
explicit total functions below.
-/

namespace FormLogic

/-- Modelled from the spec: the `BasicField` field-type enumeration (spec §3);
its declaring file is outside the provided sources.  Only membership in
`LOGIC_MAP` below matters to the logic module. -/
inductive BasicField where
  | Section | Statement | Email | Mobile | HomeNo | Number | Decimal | Image
  | ShortText | LongText | Dropdown | YesNo | Checkbox | Radio | Attachment
  | Date | Rating | Nric | Table | Uen
deriving DecidableEq

/-- Modelled from the spec: the `LogicConditionState` operator enumeration
(spec §3): Equal, Lte, Gte, Either, AnyOf. -/
inductive LogicConditionState where
  | Equal | Lte | Gte | Either | AnyOf
deriving DecidableEq

/-- Modelled from the spec: the `LogicType` enumeration (spec §3):
ShowFields or PreventSubmit. -/
inductive LogicType where
  | ShowFields | PreventSubmit
deriving DecidableEq

/-- `CheckboxConditionValue`: `{ options: string[], others: boolean }`. -/
structure CheckboxConditionValue where
  options : List String
  others : Bool
deriving DecidableEq

/-- One element of an array-shaped condition value: either a plain scalar
(kept in its string form; `String(n)` of an authored number is its decimal
string) or a `CheckboxConditionValue`. -/
inductive ConditionValueElem where
  | str (s : String)
  | cbv (v : CheckboxConditionValue)
deriving DecidableEq

/-- Modelled from the spec: the authored `condition.value`
(spec §3: `Scalar | Scalar[] | CheckboxConditionValue`): a scalar (string
form), or an array of scalars / checkbox values. -/
inductive ConditionValue where
  | str (s : String)
  | arr (l : List ConditionValueElem)
deriving DecidableEq

/-- `IConditionSchema`: one authored condition.  `field` holds the subject
field id (already in string form; the source applies `String(...)` to it). -/
structure IConditionSchema where
  field : String
  state : LogicConditionState
  value : ConditionValue
deriving DecidableEq

/-- `ILogicSchema`: one authored logic unit.  `show` is only meaningful for
ShowFields-typed units and holds the target field ids in string form. -/
structure ILogicSchema where
  logicType : LogicType
  conditions : List IConditionSchema
  «show» : List String
deriving DecidableEq

/-- `IFieldSchema`: a form field as the logic module sees it: its id (string
form) and its field type. -/
structure IFieldSchema where
  _id : String
  fieldType : BasicField
deriving DecidableEq

/-- `IFormDocument`: the form as the logic module sees it.  An absent
`form_fields` / `form_logics` behaves exactly like an empty list in the
source (`?.` with `?? []` / `new Set(undefined)`), so both are plain lists. -/
structure IFormDocument where
  _id : String
  form_fields : List IFieldSchema
  form_logics : List ILogicSchema
deriving DecidableEq

/-- The client-side `fieldValue`: `string | CheckboxConditionValue`. -/
inductive FieldValue where
  | str (s : String)
  | cbv (v : CheckboxConditionValue)
deriving DecidableEq

/-- `LogicFieldSchemaOrResponse`: one submission entry, client or server
shaped.  Exactly the attributes probed by `getCurrentValue` are modelled;
an entry with none of them yields `null` there. -/
structure LogicFieldSchemaOrResponse where
  _id : String
  fieldType : BasicField
  fieldValue : Option FieldValue := none
  answer : Option String := none
  answerArray : Option (List String) := none
deriving DecidableEq

/-- The type of a non-null `getCurrentValue` result:
`string | string[] | CheckboxConditionValue`. -/
inductive CurrentValue where
  | str (s : String)
  | strArr (l : List String)
  | cbv (v : CheckboxConditionValue)
deriving DecidableEq

/-- `getCurrentValue`: probes `fieldValue`, then `answer`, then
`answerArray`, in the source's order; `none` models the final `null`. -/
def getCurrentValue (field : LogicFieldSchemaOrResponse) : Option CurrentValue :=
  match field.fieldValue with
  | some (.str s) => some (.str s)
  | some (.cbv v) => some (.cbv v)
  | none =>
    match field.answer with
    | some s => some (.str s)
    | none =>
      match field.answerArray with
      | some l => some (.strArr l)
      | none => none

/-- lodash `isEmpty` on the values `getCurrentValue` can produce: an empty
string or empty array is empty; a `CheckboxConditionValue` object always has
own keys (`options`, `others`) and is never empty. -/
def isEmptyValue : CurrentValue → Bool
  | .str s => s == ""
  | .strArr l => l.isEmpty
  | .cbv _ => false

/-- JavaScript `String(...)` coercion on a current value: strings unchanged,
arrays joined with commas, objects render as `"[object Object]"`. -/
def jsString : CurrentValue → String
  | .str s => s
  | .strArr l => String.intercalate "," l
  | .cbv _ => "[object Object]"

/-- JavaScript `String(...)` coercion on one condition-value element. -/
def conditionValueElemString : ConditionValueElem → String
  | .str s => s
  | .cbv _ => "[object Object]"

/-- `([] as unknown[]).concat(condition.value).map(String)`: a scalar becomes
a one-element list, an array is stringified elementwise. -/
def conditionValueStrings : ConditionValue → List String
  | .str s => [s]
  | .arr l => l.map conditionValueElemString

def digitsToNat (l : List Char) : Nat :=
  l.foldl (fun acc c => acc * 10 + (c.toNat - 48)) 0

/-- A non-NaN result of JavaScript `Number(...)` on the decimal literals this
module handles, kept as the exact decimal `mant / 10 ^ exp` (on these
magnitudes the float64 ordering agrees with the exact decimal ordering). -/
structure JsNumber where
  mant : Int
  exp : Nat
deriving DecidableEq

/-- Numeric `a <= b` on parsed numbers, by cross-multiplying the powers of
ten. -/
def JsNumber.le (a b : JsNumber) : Bool :=
  decide (a.mant * (10 : Int) ^ b.exp ≤ b.mant * (10 : Int) ^ a.exp)

/-- JavaScript `Number(...)` coercion on strings, restricted to the decimal
literals this module handles: the empty string is `0`; an optional sign
followed by digits with an optional fractional part parses as the evident
decimal; anything else is `NaN`, modelled as `none`. -/
def jsNumber (s : String) : Option JsNumber :=
  let cs := s.toList
  if cs.isEmpty then some ⟨0, 0⟩
  else
    let (sign, rest) : Int × List Char :=
      match cs with
      | '-' :: r => (-1, r)
      | '+' :: r => (1, r)
      | r => (1, r)
    let intPart := rest.takeWhile Char.isDigit
    let fracTail := rest.dropWhile Char.isDigit
    match fracTail with
    | [] =>
      if intPart.isEmpty then none
      else some ⟨sign * (digitsToNat intPart : Int), 0⟩
    | '.' :: frac =>
      if frac.all Char.isDigit && !(intPart.isEmpty && frac.isEmpty) then
        some ⟨sign * ((digitsToNat intPart * 10 ^ frac.length
          + digitsToNat frac : Nat) : Int), frac.length⟩
      else none
    | _ => none

/-- JavaScript `Number(condition.value)`: a scalar parses directly; an array
is first string-converted (elements joined with commas). -/
def jsNumberOfConditionValue : ConditionValue → Option JsNumber
  | .str s => jsNumber s
  | .arr l => jsNumber (String.intercalate "," (l.map conditionValueElemString))

/-- `String.prototype.startsWith`, implemented over the character list so
that it evaluates by kernel reduction. -/
def jsStartsWith (s prefixStr : String) : Bool :=
  List.isPrefixOf prefixStr.toList s.toList

/-- `isCheckboxConditionValue`: typeguard for `{options: string[],
others: boolean}`; in the typed embedding only the `cbv` shape has those
own properties, and the guard's narrowing is returned as an `Option`. -/
def isCheckboxConditionValue : CurrentValue → Option CheckboxConditionValue
  | .cbv v => some v
  | _ => none

def checkboxElems : List ConditionValueElem → Option (List CheckboxConditionValue)
  | [] => some []
  | .cbv v :: rest => (checkboxElems rest).map (fun vs => v :: vs)
  | .str _ :: _ => none

/-- `isLogicCheckboxCondition`: `Array.isArray(condition.value)` and every
element passes `isCheckboxConditionValue`; the narrowed element list is
returned as an `Option` (an empty array passes vacuously). -/
def isLogicCheckboxCondition (condition : IConditionSchema) :
    Option (List CheckboxConditionValue) :=
  match condition.value with
  | .str _ => none
  | .arr l => checkboxElems l

/-- `LOGIC_CONDITIONS`: the fixed field-type → allowed-operator table. -/
def LOGIC_CONDITIONS : List (BasicField × List LogicConditionState) :=
  [(BasicField.Checkbox, [LogicConditionState.AnyOf]),
   (BasicField.Dropdown, [LogicConditionState.Equal, LogicConditionState.Either]),
   (BasicField.Number,
     [LogicConditionState.Equal, LogicConditionState.Lte, LogicConditionState.Gte]),
   (BasicField.Decimal,
     [LogicConditionState.Equal, LogicConditionState.Lte, LogicConditionState.Gte]),
   (BasicField.Rating,
     [LogicConditionState.Equal, LogicConditionState.Lte, LogicConditionState.Gte]),
   (BasicField.YesNo, [LogicConditionState.Equal]),
   (BasicField.Radio, [LogicConditionState.Equal, LogicConditionState.Either])]

/-- `LOGIC_MAP`: `new Map(LOGIC_CONDITIONS)`, as a lookup function. -/
def LOGIC_MAP (fieldType : BasicField) : Option (List LogicConditionState) :=
  (LOGIC_CONDITIONS.find? (fun p => p.1 == fieldType)).map (fun p => p.2)

/-- `getApplicableIfFields`: fields allowed in the if-condition dropdown
(`!!LOGIC_MAP.get(...)`; a present entry is always truthy). -/
def getApplicableIfFields (formFields : List IFieldSchema) : List IFieldSchema :=
  formFields.filter (fun field => (LOGIC_MAP field.fieldType).isSome)

/-- `getApplicableIfStates`: `LOGIC_MAP.get(fieldType) ?? []`. -/
def getApplicableIfStates (fieldType : BasicField) : List LogicConditionState :=
  (LOGIC_MAP fieldType).getD []

/-- `isLogicField`: `LOGIC_MAP.has(field.fieldType)`. -/
def isLogicField (field : LogicFieldSchemaOrResponse) : Bool :=
  (LOGIC_MAP field.fieldType).isSome

/-- Lexicographic comparison of character lists by code point, the order the
JavaScript default sort comparator induces on the strings this module
handles. -/
def charListLt : List Char → List Char → Bool
  | [], [] => false
  | [], _ :: _ => true
  | _ :: _, [] => false
  | a :: as, b :: bs =>
    if a.toNat < b.toNat then true
    else if b.toNat < a.toNat then false
    else charListLt as bs

/-- JavaScript `a < b` on strings. -/
def jsStringLt (a b : String) : Bool :=
  charListLt a.toList b.toList

/-- Insertion into a sorted string list, placing `a` before any equal
element. -/
def insertSorted (a : String) : List String → List String
  | [] => [a]
  | b :: bs => if jsStringLt b a then b :: insertSorted a bs else a :: b :: bs

/-- JavaScript `Array.prototype.sort()` on a string array: sort by code-unit
order, as a structural insertion sort so that it evaluates by kernel
reduction.  Stability does not matter on strings: equal elements are
indistinguishable.  (lodash `cloneDeep` only prevents aliasing, which a pure
function has no use for.) -/
def sortOptions (l : List String) : List String :=
  l.foldr insertSorted []

/-- The sorted copy of a `CheckboxConditionValue` built in the AnyOf branch:
`clonedObj.options = clonedObj.options.sort()`. -/
def sortCheckboxValue (value : CheckboxConditionValue) : CheckboxConditionValue :=
  { value with options := sortOptions value.options }

/-- `isConditionFulfilled`: whether one field's current value matches one
condition.  (The source's `!field || !condition` guard is the caller's
null-check; in the typed embedding both arguments are always present, and
`isLogicUnitSatisfied` below handles the absent-field case.) -/
def isConditionFulfilled (field : LogicFieldSchemaOrResponse)
    (condition : IConditionSchema) : Bool :=
  if !isLogicField field then false
  else
    match getCurrentValue field with
    | none => false
    | some currentValue =>
      if isEmptyValue currentValue then false
      else
        if condition.state == LogicConditionState.Equal
            || condition.state == LogicConditionState.Either then
          let conditionValues := conditionValueStrings condition.value
          let currentValueStr := jsString currentValue
          if conditionValues.contains "Others" then
            let conditionValues :=
              if field.fieldType == BasicField.Radio then
                conditionValues ++ ["radioButtonOthers"]
              else conditionValues
            conditionValues.contains currentValueStr
              || jsStartsWith currentValueStr "Others: "
          else
            conditionValues.contains currentValueStr
        else if condition.state == LogicConditionState.AnyOf then
          if field.fieldType == BasicField.Checkbox then
            match isLogicCheckboxCondition condition,
                isCheckboxConditionValue currentValue with
            | some conditionValue, some currentCheckboxValue =>
              let sortedConditionValue := conditionValue.map sortCheckboxValue
              let sortedCurrentValue := sortCheckboxValue currentCheckboxValue
              sortedConditionValue.any (fun val => sortedCurrentValue == val)
            | _, _ => false
          else false
        else if condition.state == LogicConditionState.Lte then
          match jsNumber (jsString currentValue),
              jsNumberOfConditionValue condition.value with
          | some cur, some cond => cur.le cond
          | _, _ => false
        else if condition.state == LogicConditionState.Gte then
          match jsNumber (jsString currentValue),
              jsNumberOfConditionValue condition.value with
          | some cur, some cond => cond.le cur
          | _, _ => false
        else false

/-- `findConditionField`: the submission entry whose (stringified) id equals
the condition's subject field id. -/
def findConditionField (submission : List LogicFieldSchemaOrResponse)
    (fieldId : String) : Option LogicFieldSchemaOrResponse :=
  submission.find? (fun submittedField => submittedField._id == fieldId)

/-- `isLogicUnitSatisfied`: every condition of the unit has its subject entry
present, visible, and fulfilling the condition. -/
def isLogicUnitSatisfied (submission : List LogicFieldSchemaOrResponse)
    (logicUnit : List IConditionSchema) (visibleFieldIds : List String) : Bool :=
  logicUnit.all (fun condition =>
    match findConditionField submission condition.field with
    | some conditionField =>
      visibleFieldIds.contains conditionField._id
        && isConditionFulfilled conditionField condition
    | none => false)

/-- `isShowFieldsLogic`. -/
def isShowFieldsLogic (formLogic : ILogicSchema) : Bool :=
  formLogic.logicType == LogicType.ShowFields

/-- `isPreventSubmitLogic`. -/
def isPreventSubmitLogic (formLogic : ILogicSchema) : Bool :=
  formLogic.logicType == LogicType.PreventSubmit

/-- `allConditionsExist`: every condition's subject field id is among the
form's field ids (the source's `Set` is modelled by list membership). -/
def allConditionsExist (conditions : List IConditionSchema)
    (formFieldIds : List String) : Bool :=
  conditions.all (fun condition => formFieldIds.contains condition.field)

/-- `GroupedLogic`: `Record<string, IConditionSchema[][]>`, modelled as an
insertion-ordered association list with unique keys. -/
abbrev GroupedLogic := List (String × List (List IConditionSchema))

/-- Key lookup in a `GroupedLogic` record. -/
def lookupGroup (groups : GroupedLogic) (fieldId : String) :
    Option (List (List IConditionSchema)) :=
  (groups.find? (fun entry => entry.1 == fieldId)).map (fun entry => entry.2)

/-- `logicUnitsGroupedByField[fieldId] = (existing ?? []).push(conditions)`:
append to the entry if present, else create it. -/
def addToGroup (groups : GroupedLogic) (fieldId : String)
    (conditions : List IConditionSchema) : GroupedLogic :=
  match lookupGroup groups fieldId with
  | some _ =>
    groups.map (fun entry =>
      if entry.1 == fieldId then (entry.1, entry.2 ++ [conditions]) else entry)
  | none => groups ++ [(fieldId, [conditions])]

/-- The inner `forEach` over a valid unit's `show` targets: append the
unit's condition group to every target that exists in the form. -/
def addShowTargets (formFieldIds : List String) (logicUnit : ILogicSchema)
    (groups : GroupedLogic) : GroupedLogic :=
  logicUnit.«show».foldl
    (fun groups fieldId =>
      if formFieldIds.contains fieldId then
        addToGroup groups fieldId logicUnit.conditions
      else groups)
    groups

/-- The body of the outer `forEach` of `groupLogicUnitsByField`: a unit with
an invalid condition contributes nothing and sets `hasInvalidLogic`. -/
def groupStep (formFieldIds : List String) (acc : GroupedLogic × Bool)
    (logicUnit : ILogicSchema) : GroupedLogic × Bool :=
  if allConditionsExist logicUnit.conditions formFieldIds then
    (addShowTargets formFieldIds logicUnit acc.1, acc.2)
  else (acc.1, true)

/-- The body of `groupLogicUnitsByField`: builds the grouped-logic record and
the `hasInvalidLogic` flag in one pass over the ShowFields units. -/
def groupLogicUnitsByFieldImpl (form : IFormDocument) : GroupedLogic × Bool :=
  let formLogics := form.form_logics.filter isShowFieldsLogic
  let formFieldIds := form.form_fields.map (fun field => field._id)
  formLogics.foldl (groupStep formFieldIds) ([], false)

/-- `groupLogicUnitsByField`: the per-target index of AND-groups. -/
def groupLogicUnitsByField (form : IFormDocument) : GroupedLogic :=
  (groupLogicUnitsByFieldImpl form).1

/-- Whether the build ends with `hasInvalidLogic` set. -/
def hasInvalidLogic (form : IFormDocument) : Bool :=
  (groupLogicUnitsByFieldImpl form).2

/-- Whether the build emits the `"Form has invalid logic"` info event:
`if (hasInvalidLogic && formId) console.info(...)` (an empty-string id is
the one falsy string). -/
def logsInvalidLogic (form : IFormDocument) : Bool :=
  hasInvalidLogic form && !(form._id == "")

/-- One field's visibility test during a sweep of `getVisibleFieldIds`:
`!logicUnits || logicUnits.some(isLogicUnitSatisfied ...)`. -/
def fieldLogicSatisfied (submission : List LogicFieldSchemaOrResponse)
    (groups : GroupedLogic) (visibleFieldIds : List String)
    (field : IFieldSchema) : Bool :=
  match lookupGroup groups field._id with
  | none => true
  | some logicUnits =>
    logicUnits.any (fun logicUnit =>
      isLogicUnitSatisfied submission logicUnit visibleFieldIds)

/-- The body of the `forEach` in `getVisibleFieldIds`: add the field and set
the changed flag when it is not yet visible and its logic admits it. -/
def sweepStep (submission : List LogicFieldSchemaOrResponse)
    (groups : GroupedLogic) (acc : List String × Bool)
    (field : IFieldSchema) : List String × Bool :=
  if !acc.1.contains field._id
      && fieldLogicSatisfied submission groups acc.1 field then
    (acc.1 ++ [field._id], true)
  else acc

/-- One full sweep over the form fields, starting with a cleared
`changesMade` flag. -/
def sweepOnce (submission : List LogicFieldSchemaOrResponse)
    (groups : GroupedLogic) (form_fields : List IFieldSchema)
    (visibleFieldIds : List String) : List String × Bool :=
  form_fields.foldl (sweepStep submission groups) (visibleFieldIds, false)

/-- The `while (changesMade)` loop, with explicit fuel; each iteration is one
full sweep, and the loop stops at the first change-free sweep. -/
def runSweeps (submission : List LogicFieldSchemaOrResponse)
    (groups : GroupedLogic) (form_fields : List IFieldSchema) :
    Nat → List String → List String
  | 0, visibleFieldIds => visibleFieldIds
  | fuel + 1, visibleFieldIds =>
    let swept := sweepOnce submission groups form_fields visibleFieldIds
    if swept.2 then runSweeps submission groups form_fields fuel swept.1
    else swept.1

/-- `getVisibleFieldIds`: fixed-point iteration from the empty visible set.
`|form_fields| + 1` sweeps always suffice (proved below), so the fuel is
exactly that bound and the result coincides with the unbounded loop. -/
def getVisibleFieldIds (submission : List LogicFieldSchemaOrResponse)
    (form : IFormDocument) : List String :=
  runSweeps submission (groupLogicUnitsByField form) form.form_fields
    (form.form_fields.length + 1) []

/-- `getPreventSubmitConditions`: the PreventSubmit units whose condition
subjects all exist among the form's field ids. -/
def getPreventSubmitConditions (form : IFormDocument) : List ILogicSchema :=
  let formFieldIds := form.form_fields.map (fun field => field._id)
  form.form_logics.filter (fun formLogic =>
    isPreventSubmitLogic formLogic
      && allConditionsExist formLogic.conditions formFieldIds)

/-- `getLogicUnitPreventingSubmit`: the first prevent-submit unit whose
conditions are all satisfied against the (supplied or recomputed) visible
set; `none` when no unit blocks. -/
def getLogicUnitPreventingSubmit (submission : List LogicFieldSchemaOrResponse)
    (form : IFormDocument) (visibleFieldIds : Option (List String) := none) :
    Option ILogicSchema :=
  let definedVisibleFieldIds :=
    visibleFieldIds.getD (getVisibleFieldIds submission form)
  (getPreventSubmitConditions form).find? (fun logicUnit =>
    isLogicUnitSatisfied submission logicUnit.conditions definedVisibleFieldIds)

/-! ## Specification-side descriptions used to state the claims -/

/-- Append on optional record entries: appending nothing leaves the entry
(possibly absent) alone; appending to an absent entry creates it. -/
def joinOpt {α : Type} : Option (List α) → List α → Option (List α)
  | o, [] => o
  | o, l => some (o.getD [] ++ l)

/-- The groups the claim predicts for one target id from a list of
ShowFields units: each unit whose condition subjects all exist contributes
one copy of its condition group per occurrence of the target id among its
`show` targets, provided the target id exists in the form; a unit with an
invalid condition contributes nothing. -/
def unitsExpected (formFieldIds : List String) (units : List ILogicSchema)
    (fieldId : String) : List (List IConditionSchema) :=
  units.foldr
    (fun u acc =>
      (if allConditionsExist u.conditions formFieldIds then
        (u.«show».filter
          (fun t => t == fieldId && formFieldIds.contains t)).map
          (fun _ => u.conditions)
      else []) ++ acc)
    []

/-- The groups the claim predicts for one target id of a form. -/
def expectedGroups (form : IFormDocument) (fieldId : String) :
    List (List IConditionSchema) :=
  unitsExpected (form.form_fields.map (fun field => field._id))
    (form.form_logics.filter isShowFieldsLogic) fieldId

/-- The invariant maintained by the resolver's visible set: every member is
the id of some form field whose visibility test currently passes. -/
def GoodVisible (submission : List LogicFieldSchemaOrResponse)
    (groups : GroupedLogic) (allFields : List IFieldSchema)
    (v : List String) : Prop :=
  ∀ x ∈ v, ∃ f, f ∈ allFields ∧ x = f._id
    ∧ fieldLogicSatisfied submission groups v f = true

/-! ## Condition Evaluator lemmas -/

theorem contains_eq_any {α : Type} [inst : DecidableEq α] (l : List α) (a : α) :
    l.contains a = l.any (fun x => a == x) := by
  induction l with
  | nil => rfl
  | cons b bs ih => simp only [List.contains_cons, List.any_cons, ih]

theorem isConditionFulfilled_of_not_logicField
    (field : LogicFieldSchemaOrResponse) (condition : IConditionSchema)
    (h : isLogicField field = false) :
    isConditionFulfilled field condition = false := by
  simp [isConditionFulfilled, h]

theorem isConditionFulfilled_of_currentValue_none
    (field : LogicFieldSchemaOrResponse) (condition : IConditionSchema)
    (h : getCurrentValue field = none) :
    isConditionFulfilled field condition = false := by
  simp [isConditionFulfilled, h]

theorem isConditionFulfilled_of_empty
    (field : LogicFieldSchemaOrResponse) (condition : IConditionSchema)
    (cv : CurrentValue) (hcv : getCurrentValue field = some cv)
    (hemp : isEmptyValue cv = true) :
    isConditionFulfilled field condition = false := by
  simp [isConditionFulfilled, hcv, hemp]

theorem isConditionFulfilled_anyOf_not_checkbox
    (field : LogicFieldSchemaOrResponse) (condition : IConditionSchema)
    (hst : condition.state = LogicConditionState.AnyOf)
    (hft : field.fieldType ≠ BasicField.Checkbox) :
    isConditionFulfilled field condition = false := by
  rcases hcv : getCurrentValue field with _ | cv
  · exact isConditionFulfilled_of_currentValue_none field condition hcv
  · simp [isConditionFulfilled, hst, hcv, beq_false_of_ne hft,
      show (LogicConditionState.AnyOf == LogicConditionState.Equal) = false from rfl,
      show (LogicConditionState.AnyOf == LogicConditionState.Either) = false from rfl,
      show (LogicConditionState.AnyOf == LogicConditionState.AnyOf) = true from rfl]

/-- C1 (counterexample): the evaluator returns `true` for a Dropdown field
under an `Lte` condition, an operator/field-type pair outside the fixed
applicability table: the table is only consulted for the field type, after
which dispatch is on the operator alone. -/
theorem c1_applicability_counterexample :
    isConditionFulfilled
      { _id := "d1", fieldType := BasicField.Dropdown, answer := some "3" }
      ⟨"d1", LogicConditionState.Lte, ConditionValue.str "5"⟩ = true
    ∧ (getApplicableIfStates BasicField.Dropdown).contains
        LogicConditionState.Lte = false := by
  constructor <;> decide

/-- C1 (amended): whenever `isConditionFulfilled` returns true, the field's
type is a key of `LOGIC_MAP`, and an `AnyOf` condition is satisfied only by a
Checkbox-typed field; for field types inside the table the remaining
operators are dispatched on the operator alone, without a per-type
restriction (see the counterexample). -/
theorem isConditionFulfilled_applicability
    (field : LogicFieldSchemaOrResponse) (condition : IConditionSchema)
    (h : isConditionFulfilled field condition = true) :
    (LOGIC_MAP field.fieldType).isSome = true
      ∧ (condition.state = LogicConditionState.AnyOf →
          field.fieldType = BasicField.Checkbox) := by
  constructor
  · by_contra hns
    rw [Bool.not_eq_true] at hns
    rw [isConditionFulfilled_of_not_logicField field condition hns] at h
    exact Bool.false_ne_true h
  · intro hAnyOf
    by_contra hcb
    rw [isConditionFulfilled_anyOf_not_checkbox field condition hAnyOf hcb] at h
    exact Bool.false_ne_true h

/-- C1 (witness for the amended theorem): concrete satisfied condition. -/
theorem isConditionFulfilled_applicability_witness :
    (LOGIC_MAP BasicField.YesNo).isSome = true
      ∧ (LogicConditionState.Equal = LogicConditionState.AnyOf →
          BasicField.YesNo = BasicField.Checkbox) :=
  isConditionFulfilled_applicability
    { _id := "y1", fieldType := BasicField.YesNo, answer := some "Yes" }
    ⟨"y1", LogicConditionState.Equal, ConditionValue.str "Yes"⟩
    (by decide)

/-- C4: for a Radio-typed subject under an `Equal` or `Either` condition
whose values include the literal `"Others"`, both representations of an
"others" selection satisfy the condition: the live-form sentinel
`'radioButtonOthers'` and any finalized answer beginning with
`"Others: "`. -/
theorem isConditionFulfilled_radio_others
    (field : LogicFieldSchemaOrResponse) (condition : IConditionSchema)
    (ans : String)
    (hty : field.fieldType = BasicField.Radio)
    (hcv : getCurrentValue field = some (CurrentValue.str ans))
    (hst : condition.state = LogicConditionState.Equal ∨
      condition.state = LogicConditionState.Either)
    (hothers : (conditionValueStrings condition.value).contains "Others" = true)
    (hans : ans = "radioButtonOthers" ∨ jsStartsWith ans "Others: " = true) :
    isConditionFulfilled field condition = true := by
  have hne : (ans == "") = false := by
    rcases hans with h | h
    · subst h; rfl
    · rcases eq_or_ne ans "" with he | he
      · subst he; exact absurd h (by decide)
      · exact beq_false_of_ne he
  have hlf : isLogicField field = true := by
    simp only [isLogicField, hty]; rfl
  have hstb : (condition.state == LogicConditionState.Equal
      || condition.state == LogicConditionState.Either) = true := by
    rcases hst with h | h <;> simp [h]
  simp only [isConditionFulfilled, hlf, hcv, Bool.not_true, Bool.false_eq_true,
    if_false, isEmptyValue, hne, hstb, if_true, jsString, hothers, hty,
    show (BasicField.Radio == BasicField.Radio) = true from rfl]
  rw [Bool.or_eq_true]
  rcases hans with h | h
  · subst h
    left
    simp [List.elem_iff]
  · right
    exact h

/-- C4 (witness): the two concrete "others" answers from the spec. -/
theorem isConditionFulfilled_radio_others_witness :
    isConditionFulfilled
      { _id := "r1", fieldType := BasicField.Radio,
        answer := some "Others: custom text" }
      ⟨"r1", LogicConditionState.Equal, ConditionValue.str "Others"⟩ = true :=
  isConditionFulfilled_radio_others _ _ "Others: custom text" rfl rfl
    (Or.inl rfl) (by decide) (Or.inr (by decide))

/-- C7: the evaluator returns `false` — it is a total function, so never an
error — whenever the subject's current value is absent or empty, or the
subject's field type is not a key of the applicability table; in particular a
Number field with an empty-string answer under `{Gte, 5}` evaluates false. -/
theorem isConditionFulfilled_degenerate_false :
    (∀ (field : LogicFieldSchemaOrResponse) (condition : IConditionSchema),
      (getCurrentValue field = none ∨
        (∃ cv, getCurrentValue field = some cv ∧ isEmptyValue cv = true) ∨
        LOGIC_MAP field.fieldType = none) →
      isConditionFulfilled field condition = false) ∧
    isConditionFulfilled
      { _id := "n1", fieldType := BasicField.Number, answer := some "" }
      ⟨"n1", LogicConditionState.Gte, ConditionValue.str "5"⟩ = false := by
  constructor
  · intro field condition h
    rcases h with h | ⟨cv, hcv, hemp⟩ | h
    · exact isConditionFulfilled_of_currentValue_none field condition h
    · exact isConditionFulfilled_of_empty field condition cv hcv hemp
    · exact isConditionFulfilled_of_not_logicField field condition
        (by simp [isLogicField, h])
  · decide

/-- C7 (witness): the universally quantified part applied to a concrete
absent answer. -/
theorem isConditionFulfilled_degenerate_false_witness :
    isConditionFulfilled
      { _id := "q1", fieldType := BasicField.Dropdown }
      ⟨"q1", LogicConditionState.Equal, ConditionValue.str "A"⟩ = false :=
  isConditionFulfilled_degenerate_false.1 _ _ (Or.inl rfl)

/-- C8: an `AnyOf` condition is satisfied exactly when the subject is a
Checkbox-typed field whose current value is a `CheckboxConditionValue`, the
condition's value is an array of `CheckboxConditionValue`s, and, after
sorting both sides' `options`, the current value deep-equals one of the
condition's candidate values. -/
theorem isConditionFulfilled_anyOf_iff
    (field : LogicFieldSchemaOrResponse) (condition : IConditionSchema)
    (hst : condition.state = LogicConditionState.AnyOf) :
    isConditionFulfilled field condition = true ↔
      field.fieldType = BasicField.Checkbox ∧
      ∃ currentCheckboxValue conditionValue,
        getCurrentValue field = some (CurrentValue.cbv currentCheckboxValue) ∧
        isLogicCheckboxCondition condition = some conditionValue ∧
        (conditionValue.map sortCheckboxValue).contains
          (sortCheckboxValue currentCheckboxValue) = true := by
  constructor
  · intro h
    have hft : field.fieldType = BasicField.Checkbox := by
      by_contra hcb
      rw [isConditionFulfilled_anyOf_not_checkbox field condition hst hcb] at h
      exact Bool.false_ne_true h
    refine ⟨hft, ?_⟩
    have hlf : isLogicField field = true := by
      simp only [isLogicField, hft]; rfl
    rcases hcv : getCurrentValue field with _ | cv
    · rw [isConditionFulfilled_of_currentValue_none field condition hcv] at h
      exact absurd h (by simp)
    · simp only [isConditionFulfilled, hlf, hcv, hst, hft, Bool.not_true,
        Bool.false_eq_true, if_false,
        show (LogicConditionState.AnyOf == LogicConditionState.Equal) = false
          from rfl,
        show (LogicConditionState.AnyOf == LogicConditionState.Either) = false
          from rfl,
        show (LogicConditionState.AnyOf == LogicConditionState.AnyOf) = true
          from rfl,
        show (BasicField.Checkbox == BasicField.Checkbox) = true from rfl,
        Bool.or_self, if_true] at h
      cases cv with
      | str s =>
        rw [show isCheckboxConditionValue (CurrentValue.str s) = none from rfl]
          at h
        split at h <;> simp_all
      | strArr l =>
        rw [show isCheckboxConditionValue (CurrentValue.strArr l) = none
          from rfl] at h
        split at h <;> simp_all
      | cbv v =>
        rw [show isCheckboxConditionValue (CurrentValue.cbv v) = some v
          from rfl] at h
        rcases hlc : isLogicCheckboxCondition condition with _ | cond
        · rw [hlc] at h; simp at h
        · rw [hlc] at h
          simp only [isEmptyValue, Bool.false_eq_true, if_false] at h
          refine ⟨v, cond, rfl, rfl, ?_⟩
          rw [contains_eq_any]
          exact h
  · rintro ⟨hft, v, cond, hcv, hlc, hmem⟩
    have hlf : isLogicField field = true := by
      simp only [isLogicField, hft]; rfl
    simp only [isConditionFulfilled, hlf, hcv, hst, hft, hlc, Bool.not_true,
      Bool.false_eq_true, if_false,
      show (LogicConditionState.AnyOf == LogicConditionState.Equal) = false
        from rfl,
      show (LogicConditionState.AnyOf == LogicConditionState.Either) = false
        from rfl,
      show (LogicConditionState.AnyOf == LogicConditionState.AnyOf) = true
        from rfl,
      show (BasicField.Checkbox == BasicField.Checkbox) = true from rfl,
      show isCheckboxConditionValue (CurrentValue.cbv v) = some v from rfl,
      Bool.or_self, if_true, isEmptyValue]
    rw [contains_eq_any] at hmem
    exact hmem

/-- C8 (witness): a concrete checkbox answer matching a candidate up to
option order. -/
theorem isConditionFulfilled_anyOf_iff_witness :
    isConditionFulfilled
      { _id := "c1", fieldType := BasicField.Checkbox,
        fieldValue := some (FieldValue.cbv ⟨["b", "a"], false⟩) }
      ⟨"c1", LogicConditionState.AnyOf,
        ConditionValue.arr [ConditionValueElem.cbv ⟨["a", "b"], false⟩]⟩
      = true :=
  (isConditionFulfilled_anyOf_iff _ _ rfl).mpr
    ⟨rfl, ⟨["b", "a"], false⟩, [⟨["a", "b"], false⟩], rfl, rfl, by decide⟩

/-! ## Logic Grouping Index lemmas -/

theorem joinOpt_nil {α : Type} (o : Option (List α)) : joinOpt o [] = o := rfl

theorem lookupGroup_nil (fieldId : String) : lookupGroup [] fieldId = none :=
  rfl

theorem joinOpt_cons {α : Type} (o : Option (List α)) (c : α) (l : List α) :
    joinOpt (some (o.getD [] ++ [c])) l = joinOpt o (c :: l) := by
  cases l with
  | nil => rfl
  | cons x xs => simp [joinOpt]

theorem joinOpt_append {α : Type} (o : Option (List α)) (l1 l2 : List α) :
    joinOpt (joinOpt o l1) l2 = joinOpt o (l1 ++ l2) := by
  cases l1 with
  | nil => rfl
  | cons x xs =>
    cases l2 with
    | nil => simp [joinOpt]
    | cons y ys => simp [joinOpt]

theorem lookup_addToGroup (g : GroupedLogic) (fieldId : String)
    (conditions : List IConditionSchema) (fieldId' : String) :
    lookupGroup (addToGroup g fieldId conditions) fieldId' =
      if fieldId' = fieldId then
        some ((lookupGroup g fieldId).getD [] ++ [conditions])
      else lookupGroup g fieldId' := by
  have hpre : ∀ entry : String × List (List IConditionSchema),
      (if entry.1 == fieldId then (entry.1, entry.2 ++ [conditions])
        else entry).1 = entry.1 := by
    intro entry; split <;> rfl
  cases hl : lookupGroup g fieldId with
  | none =>
    have hfind : g.find? (fun entry => entry.1 == fieldId) = none := by
      unfold lookupGroup at hl
      exact Option.map_eq_none'.mp hl
    unfold addToGroup
    rw [hl]
    unfold lookupGroup
    rw [List.find?_append]
    by_cases h : fieldId' = fieldId
    · subst h
      rw [hfind]
      simp [List.find?]
    · rw [if_neg h]
      cases hf' : g.find? (fun entry => entry.1 == fieldId') with
      | none =>
        simp [hf', List.find?, beq_false_of_ne (Ne.symm h)]
      | some e' => simp [hf']
  | some l =>
    obtain ⟨e, hfe, he2⟩ := Option.map_eq_some'.mp (by
      unfold lookupGroup at hl; exact hl)
    unfold addToGroup
    rw [hl]
    unfold lookupGroup
    rw [List.find?_map]
    have hcomp : ((fun entry : String × List (List IConditionSchema) =>
        entry.1 == fieldId') ∘ (fun entry =>
          if entry.1 == fieldId then (entry.1, entry.2 ++ [conditions])
          else entry))
        = (fun entry => entry.1 == fieldId') := by
      funext entry
      simp only [Function.comp_apply]
      rw [hpre entry]
    rw [hcomp]
    by_cases h : fieldId' = fieldId
    · subst h
      rw [hfe]
      have he1 := List.find?_some hfe
      simp only [Option.map_some', Option.getD_some, if_pos rfl]
      rw [show (if e.1 == fieldId' then (e.1, e.2 ++ [conditions]) else e)
          = (e.1, e.2 ++ [conditions]) from by rw [if_pos he1]]
      rw [he2]
      simp
    · rw [if_neg h]
      cases hf' : g.find? (fun entry => entry.1 == fieldId') with
      | none => simp
      | some e' =>
        have he1' := List.find?_some hf'
        have hne : (e'.1 == fieldId) = false := by
          rw [beq_iff_eq] at he1'
          exact beq_false_of_ne (by rw [he1']; exact h)
        simp only [Option.map_some']
        rw [show (if e'.1 == fieldId then (e'.1, e'.2 ++ [conditions]) else e')
            = e' from by rw [hne]; simp]

theorem lookup_showFold (formFieldIds : List String)
    (conditions : List IConditionSchema) (ts : List String) :
    ∀ (g : GroupedLogic) (fieldId : String),
    lookupGroup
      (ts.foldl
        (fun groups t =>
          if formFieldIds.contains t then addToGroup groups t conditions
          else groups) g) fieldId
      = joinOpt (lookupGroup g fieldId)
          ((ts.filter (fun t => t == fieldId && formFieldIds.contains t)).map
            (fun _ => conditions)) := by
  induction ts with
  | nil => intro g fieldId; rfl
  | cons t ts ih =>
    intro g fieldId
    rw [List.foldl_cons, List.filter_cons]
    by_cases hc : formFieldIds.contains t = true
    · by_cases ht : t = fieldId
      · subst ht
        rw [if_pos hc,
          if_pos (show (t == t && formFieldIds.contains t) = true from by
            rw [Bool.and_eq_true]; exact ⟨beq_self_eq_true t, hc⟩),
          List.map_cons, ih, lookup_addToGroup, if_pos rfl, joinOpt_cons]
      · rw [if_pos hc,
          if_neg (show ¬((t == fieldId && formFieldIds.contains t) = true)
            from fun hcon => ht (by
              rw [Bool.and_eq_true] at hcon
              exact beq_iff_eq.mp hcon.1)),
          ih, lookup_addToGroup, if_neg (Ne.symm ht)]
    · rw [if_neg hc,
        if_neg (show ¬((t == fieldId && formFieldIds.contains t) = true) by
          intro hcon
          rw [Bool.and_eq_true] at hcon
          exact hc hcon.2),
        ih]

theorem lookup_addShowTargets (formFieldIds : List String)
    (logicUnit : ILogicSchema) (g : GroupedLogic) (fieldId : String) :
    lookupGroup (addShowTargets formFieldIds logicUnit g) fieldId
      = joinOpt (lookupGroup g fieldId)
          ((logicUnit.«show».filter
            (fun t => t == fieldId && formFieldIds.contains t)).map
            (fun _ => logicUnit.conditions)) := by
  unfold addShowTargets
  exact lookup_showFold formFieldIds logicUnit.conditions logicUnit.«show» g
    fieldId

theorem unitsExpected_cons (formFieldIds : List String) (u : ILogicSchema)
    (us : List ILogicSchema) (fieldId : String) :
    unitsExpected formFieldIds (u :: us) fieldId
      = (if allConditionsExist u.conditions formFieldIds then
          (u.«show».filter
            (fun t => t == fieldId && formFieldIds.contains t)).map
            (fun _ => u.conditions)
        else []) ++ unitsExpected formFieldIds us fieldId := rfl

theorem lookup_groupFold (formFieldIds : List String)
    (units : List ILogicSchema) :
    ∀ (g : GroupedLogic) (b : Bool) (fieldId : String),
    lookupGroup ((units.foldl (groupStep formFieldIds) (g, b)).1) fieldId
      = joinOpt (lookupGroup g fieldId)
          (unitsExpected formFieldIds units fieldId) := by
  induction units with
  | nil => intro g b fieldId; rfl
  | cons u us ih =>
    intro g b fieldId
    rw [List.foldl_cons, unitsExpected_cons]
    by_cases hv : allConditionsExist u.conditions formFieldIds = true
    · rw [show groupStep formFieldIds (g, b) u
          = (addShowTargets formFieldIds u g, b) from by
            unfold groupStep; rw [if_pos hv]]
      rw [if_pos hv, ih, lookup_addShowTargets, joinOpt_append]
    · rw [show groupStep formFieldIds (g, b) u = (g, true) from by
        unfold groupStep; rw [if_neg hv]]
      rw [if_neg hv, ih, List.nil_append]

theorem groupFold_flag (formFieldIds : List String)
    (units : List ILogicSchema) :
    ∀ (g : GroupedLogic) (b : Bool),
    (units.foldl (groupStep formFieldIds) (g, b)).2
      = (b || units.any
          (fun u => !allConditionsExist u.conditions formFieldIds)) := by
  induction units with
  | nil => intro g b; simp
  | cons u us ih =>
    intro g b
    rw [List.foldl_cons, List.any_cons]
    by_cases hv : allConditionsExist u.conditions formFieldIds = true
    · rw [show groupStep formFieldIds (g, b) u
          = (addShowTargets formFieldIds u g, b) from by
            unfold groupStep; rw [if_pos hv]]
      rw [ih]
      simp [hv]
    · rw [show groupStep formFieldIds (g, b) u = (g, true) from by
        unfold groupStep; rw [if_neg hv]]
      rw [ih]
      rw [Bool.not_eq_true] at hv
      simp [hv]

theorem lookupGroup_groupLogicUnitsByField (form : IFormDocument)
    (fieldId : String) :
    lookupGroup (groupLogicUnitsByField form) fieldId =
      if (expectedGroups form fieldId).isEmpty then none
      else some (expectedGroups form fieldId) := by
  simp only [groupLogicUnitsByField, groupLogicUnitsByFieldImpl,
    expectedGroups]
  rw [lookup_groupFold]
  cases unitsExpected (form.form_fields.map (fun field => field._id))
      (form.form_logics.filter isShowFieldsLogic) fieldId with
  | nil => rfl
  | cons x xs => simp [joinOpt, lookupGroup_nil]

/-- C5: the Logic Grouping Index maps each target field id to exactly the
condition groups of the ShowFields units that are retained (all condition
subjects exist in the form), in authoring order, once per occurrence of that
existing target id among the unit's `show` targets; a unit with an unknown
condition subject contributes to no target, and a retained unit's unknown
targets are skipped without affecting its valid targets. -/
theorem groupLogicUnitsByField_spec (form : IFormDocument) (fieldId : String) :
    lookupGroup (groupLogicUnitsByField form) fieldId =
      if (expectedGroups form fieldId).isEmpty then none
      else some (expectedGroups form fieldId) :=
  lookupGroup_groupLogicUnitsByField form fieldId

/-- C9 (counterexample): a form whose only logic unit has valid conditions
but only unknown `show` targets is dropped wholesale from the index, yet the
build does not emit the "invalid logic" info event: the `hasInvalidLogic`
flag is set only when a condition references an unknown field id. -/
theorem c9_log_counterexample :
    logsInvalidLogic
      { _id := "f1",
        form_fields := [⟨"a", BasicField.Dropdown⟩],
        form_logics := [⟨LogicType.ShowFields,
          [⟨"a", LogicConditionState.Equal, ConditionValue.str "x"⟩],
          ["zzz"]⟩] } = false
    ∧ groupLogicUnitsByField
      { _id := "f1",
        form_fields := [⟨"a", BasicField.Dropdown⟩],
        form_logics := [⟨LogicType.ShowFields,
          [⟨"a", LogicConditionState.Equal, ConditionValue.str "x"⟩],
          ["zzz"]⟩] } = []
    ∧ (([⟨LogicType.ShowFields,
          [⟨"a", LogicConditionState.Equal, ConditionValue.str "x"⟩],
          ["zzz"]⟩] : List ILogicSchema).any
        (fun u => !u.«show».isEmpty
          && u.«show».all (fun t => !(["a"] : List String).contains t)))
        = true := by
  refine ⟨rfl, rfl, rfl⟩

/-- C9 (amended): the index build emits the single "invalid logic" info
event iff some ShowFields unit has a condition referencing an unknown field
id and the form id is non-empty (the one falsy string id); a unit with valid
conditions whose `show` targets are all unknown is skipped silently; and in
every case the index built from the remaining valid rules is still returned,
characterized per target id. -/
theorem logsInvalidLogic_spec (form : IFormDocument) :
    (logsInvalidLogic form = true ↔
      ((form.form_logics.filter isShowFieldsLogic).any
        (fun u => !allConditionsExist u.conditions
          (form.form_fields.map (fun field => field._id))) = true
        ∧ form._id ≠ "")) ∧
    ∀ fieldId, lookupGroup (groupLogicUnitsByField form) fieldId =
      if (expectedGroups form fieldId).isEmpty then none
      else some (expectedGroups form fieldId) := by
  constructor
  · simp only [logsInvalidLogic, hasInvalidLogic, groupLogicUnitsByFieldImpl]
    rw [groupFold_flag]
    simp [Bool.and_eq_true, ne_eq]
  · exact fun fieldId => lookupGroup_groupLogicUnitsByField form fieldId

/-! ## Visibility Resolver lemmas -/

theorem isLogicUnitSatisfied_mono
    (submission : List LogicFieldSchemaOrResponse)
    (logicUnit : List IConditionSchema) {v w : List String}
    (hvw : ∀ x, x ∈ v → x ∈ w)
    (h : isLogicUnitSatisfied submission logicUnit v = true) :
    isLogicUnitSatisfied submission logicUnit w = true := by
  unfold isLogicUnitSatisfied at h ⊢
  rw [List.all_eq_true] at h ⊢
  intro condition hcond
  have hc := h condition hcond
  cases hfind : findConditionField submission condition.field with
  | none => rw [hfind] at hc; exact absurd hc (by simp)
  | some conditionField =>
    rw [hfind] at hc
    have hc' : (v.contains conditionField._id
        && isConditionFulfilled conditionField condition) = true := hc
    show (w.contains conditionField._id
        && isConditionFulfilled conditionField condition) = true
    rw [Bool.and_eq_true] at hc' ⊢
    exact ⟨List.elem_iff.mpr (hvw _ (List.elem_iff.mp hc'.1)), hc'.2⟩

theorem fieldLogicSatisfied_mono
    (submission : List LogicFieldSchemaOrResponse) (groups : GroupedLogic)
    (field : IFieldSchema) {v w : List String}
    (hvw : ∀ x, x ∈ v → x ∈ w)
    (h : fieldLogicSatisfied submission groups v field = true) :
    fieldLogicSatisfied submission groups w field = true := by
  unfold fieldLogicSatisfied at h ⊢
  cases hg : lookupGroup groups field._id with
  | none => rfl
  | some logicUnits =>
    rw [hg] at h
    have h' : (logicUnits.any fun logicUnit =>
        isLogicUnitSatisfied submission logicUnit v) = true := h
    show (logicUnits.any fun logicUnit =>
        isLogicUnitSatisfied submission logicUnit w) = true
    rw [List.any_eq_true] at h' ⊢
    obtain ⟨lu, hmem, hsat⟩ := h'
    exact ⟨lu, hmem, isLogicUnitSatisfied_mono submission lu hvw hsat⟩

theorem fieldLogicSatisfied_congr
    (submission : List LogicFieldSchemaOrResponse) (groups : GroupedLogic)
    (v : List String) {f g : IFieldSchema} (h : f._id = g._id) :
    fieldLogicSatisfied submission groups v f
      = fieldLogicSatisfied submission groups v g := by
  unfold fieldLogicSatisfied
  rw [h]

theorem sweepFold_subset
    (submission : List LogicFieldSchemaOrResponse) (groups : GroupedLogic)
    (fields : List IFieldSchema) :
    ∀ (acc : List String × Bool) (x : String), x ∈ acc.1 →
      x ∈ (fields.foldl (sweepStep submission groups) acc).1 := by
  induction fields with
  | nil => intro acc x hx; exact hx
  | cons f fs ih =>
    intro acc x hx
    rw [List.foldl_cons]
    refine ih (sweepStep submission groups acc f) x ?_
    unfold sweepStep
    split
    · exact List.mem_append_left _ hx
    · exact hx

theorem sweepFold_flag_mono
    (submission : List LogicFieldSchemaOrResponse) (groups : GroupedLogic)
    (fields : List IFieldSchema) :
    ∀ (acc : List String × Bool), acc.2 = true →
      (fields.foldl (sweepStep submission groups) acc).2 = true := by
  induction fields with
  | nil => intro acc h; exact h
  | cons f fs ih =>
    intro acc h
    rw [List.foldl_cons]
    refine ih (sweepStep submission groups acc f) ?_
    unfold sweepStep
    split
    · rfl
    · exact h

theorem sweepFold_of_flag_false
    (submission : List LogicFieldSchemaOrResponse) (groups : GroupedLogic)
    (fields : List IFieldSchema) :
    ∀ (acc : List String × Bool),
      (fields.foldl (sweepStep submission groups) acc).2 = false →
      fields.foldl (sweepStep submission groups) acc = acc
        ∧ ∀ f ∈ fields,
          ¬((!acc.1.contains f._id
            && fieldLogicSatisfied submission groups acc.1 f) = true) := by
  induction fields with
  | nil =>
    intro acc _
    exact ⟨rfl, fun f hf => absurd hf (List.not_mem_nil f)⟩
  | cons f fs ih =>
    intro acc h
    rw [List.foldl_cons] at h ⊢
    by_cases hcond : (!acc.1.contains f._id
        && fieldLogicSatisfied submission groups acc.1 f) = true
    · exfalso
      have hstep : sweepStep submission groups acc f
          = (acc.1 ++ [f._id], true) := by
        unfold sweepStep; rw [if_pos hcond]
      rw [hstep] at h
      rw [sweepFold_flag_mono submission groups fs (acc.1 ++ [f._id], true)
        rfl] at h
      exact absurd h (by simp)
    · have hstep : sweepStep submission groups acc f = acc := by
        unfold sweepStep; rw [if_neg hcond]
      rw [hstep] at h ⊢
      obtain ⟨heq, hall⟩ := ih acc h
      refine ⟨heq, ?_⟩
      intro f' hf'
      rcases List.mem_cons.mp hf' with rfl | hf''
      · exact hcond
      · exact hall f' hf''

theorem and_eq_true_iff (a b : Bool) :
    (a && b) = true ↔ a = true ∧ b = true := by
  simp

theorem sweepFold_good
    (submission : List LogicFieldSchemaOrResponse) (groups : GroupedLogic)
    (allFields : List IFieldSchema) :
    ∀ (fields : List IFieldSchema) (acc : List String × Bool),
      (∀ f ∈ fields, f ∈ allFields) →
      GoodVisible submission groups allFields acc.1 →
      GoodVisible submission groups allFields
        (fields.foldl (sweepStep submission groups) acc).1 := by
  intro fields
  induction fields with
  | nil => intro acc _ hgood; exact hgood
  | cons f fs ih =>
    intro acc hsub hgood
    rw [List.foldl_cons]
    refine ih (sweepStep submission groups acc f)
      (fun f' hf' => hsub f' (List.mem_cons_of_mem f hf')) ?_
    by_cases hcond : (!acc.1.contains f._id
        && fieldLogicSatisfied submission groups acc.1 f) = true
    · have hstep : sweepStep submission groups acc f
          = (acc.1 ++ [f._id], true) := by
        unfold sweepStep; rw [if_pos hcond]
      rw [hstep]
      intro x hx
      have hmono : ∀ y, y ∈ acc.1 → y ∈ acc.1 ++ [f._id] :=
        fun y hy => List.mem_append_left _ hy
      rcases List.mem_append.mp hx with hx' | hx'
      · obtain ⟨f', hf'mem, hf'id, hf'sat⟩ := hgood x hx'
        exact ⟨f', hf'mem, hf'id,
          fieldLogicSatisfied_mono submission groups f' hmono hf'sat⟩
      · rcases List.mem_singleton.mp hx' with rfl
        exact ⟨f, hsub f (List.mem_cons_self f fs), rfl,
          fieldLogicSatisfied_mono submission groups f hmono
            (and_eq_true_iff _ _ |>.mp hcond).2⟩
    · have hstep : sweepStep submission groups acc f = acc := by
        unfold sweepStep; rw [if_neg hcond]
      rw [hstep]
      exact hgood

theorem sweepFold_ids
    (submission : List LogicFieldSchemaOrResponse) (groups : GroupedLogic)
    (allFields : List IFieldSchema) :
    ∀ (fields : List IFieldSchema) (acc : List String × Bool),
      (∀ f ∈ fields, f ∈ allFields) →
      (∀ x ∈ acc.1, ∃ f, f ∈ allFields ∧ x = f._id) →
      ∀ x ∈ (fields.foldl (sweepStep submission groups) acc).1,
        ∃ f, f ∈ allFields ∧ x = f._id := by
  intro fields
  induction fields with
  | nil => intro acc _ hids; exact hids
  | cons f fs ih =>
    intro acc hsub hids
    rw [List.foldl_cons]
    refine ih (sweepStep submission groups acc f)
      (fun f' hf' => hsub f' (List.mem_cons_of_mem f hf')) ?_
    intro x hx
    unfold sweepStep at hx
    split at hx
    · rcases List.mem_append.mp hx with hx' | hx'
      · exact hids x hx'
      · rcases List.mem_singleton.mp hx' with rfl
        exact ⟨f, hsub f (List.mem_cons_self f fs), rfl⟩
    · exact hids x hx

theorem sweepFold_nodup
    (submission : List LogicFieldSchemaOrResponse) (groups : GroupedLogic)
    (fields : List IFieldSchema) :
    ∀ (acc : List String × Bool), acc.1.Nodup →
      (fields.foldl (sweepStep submission groups) acc).1.Nodup := by
  induction fields with
  | nil => intro acc h; exact h
  | cons f fs ih =>
    intro acc h
    rw [List.foldl_cons]
    refine ih (sweepStep submission groups acc f) ?_
    by_cases hcond : (!acc.1.contains f._id
        && fieldLogicSatisfied submission groups acc.1 f) = true
    · have hstep : sweepStep submission groups acc f
          = (acc.1 ++ [f._id], true) := by
        unfold sweepStep; rw [if_pos hcond]
      rw [hstep]
      have hnotmem : f._id ∉ acc.1 := by
        have hb := (and_eq_true_iff _ _ |>.mp hcond).1
        rw [Bool.not_eq_true'] at hb
        intro hmem
        have hc : acc.1.contains f._id = true := List.elem_iff.mpr hmem
        rw [hc] at hb
        exact absurd hb (by simp)
      simp [List.nodup_append, h, hnotmem]
    · have hstep : sweepStep submission groups acc f = acc := by
        unfold sweepStep; rw [if_neg hcond]
      rw [hstep]
      exact h

theorem sweepFold_growth
    (submission : List LogicFieldSchemaOrResponse) (groups : GroupedLogic)
    (fields : List IFieldSchema) :
    ∀ (acc : List String × Bool),
      acc.1.length ≤ (fields.foldl (sweepStep submission groups) acc).1.length
      ∧ ((fields.foldl (sweepStep submission groups) acc).2 = true →
          acc.2 = true
          ∨ acc.1.length
              < (fields.foldl (sweepStep submission groups) acc).1.length) := by
  induction fields with
  | nil => intro acc; exact ⟨Nat.le_refl _, fun h => Or.inl h⟩
  | cons f fs ih =>
    intro acc
    rw [List.foldl_cons]
    obtain ⟨ihlen, ihflag⟩ := ih (sweepStep submission groups acc f)
    by_cases hcond : (!acc.1.contains f._id
        && fieldLogicSatisfied submission groups acc.1 f) = true
    · have hstep : sweepStep submission groups acc f
          = (acc.1 ++ [f._id], true) := by
        unfold sweepStep; rw [if_pos hcond]
      rw [hstep] at ihlen ihflag ⊢
      have hlt : acc.1.length < (acc.1 ++ [f._id]).length := by
        simp
      exact ⟨Nat.le_of_lt (Nat.lt_of_lt_of_le hlt ihlen),
        fun _ => Or.inr (Nat.lt_of_lt_of_le hlt ihlen)⟩
    · have hstep : sweepStep submission groups acc f = acc := by
        unfold sweepStep; rw [if_neg hcond]
      rw [hstep] at ihlen ihflag ⊢
      exact ⟨ihlen, ihflag⟩

theorem sweepFold_prefixed
    (submission : List LogicFieldSchemaOrResponse) (groups : GroupedLogic)
    (S : List String) :
    ∀ (fields : List IFieldSchema) (acc : List String × Bool),
      (∀ f ∈ fields,
        fieldLogicSatisfied submission groups S f = true → f._id ∈ S) →
      (∀ x ∈ acc.1, x ∈ S) →
      ∀ x ∈ (fields.foldl (sweepStep submission groups) acc).1, x ∈ S := by
  intro fields
  induction fields with
  | nil => intro acc _ hsub; exact hsub
  | cons f fs ih =>
    intro acc hclosed hsub
    rw [List.foldl_cons]
    refine ih (sweepStep submission groups acc f)
      (fun f' hf' => hclosed f' (List.mem_cons_of_mem f hf')) ?_
    intro x hx
    by_cases hcond : (!acc.1.contains f._id
        && fieldLogicSatisfied submission groups acc.1 f) = true
    · have hstep : sweepStep submission groups acc f
          = (acc.1 ++ [f._id], true) := by
        unfold sweepStep; rw [if_pos hcond]
      rw [hstep] at hx
      rcases List.mem_append.mp hx with hx' | hx'
      · exact hsub x hx'
      · rcases List.mem_singleton.mp hx' with rfl
        exact hclosed f (List.mem_cons_self f fs)
          (fieldLogicSatisfied_mono submission groups f hsub
            (and_eq_true_iff _ _ |>.mp hcond).2)
    · have hstep : sweepStep submission groups acc f = acc := by
        unfold sweepStep; rw [if_neg hcond]
      rw [hstep] at hx
      exact hsub x hx

theorem visible_length_le
    (fields : List IFieldSchema) (v : List String) (hnd : v.Nodup)
    (hids : ∀ x ∈ v, ∃ f, f ∈ fields ∧ x = f._id) :
    v.length ≤ fields.length := by
  have hsub : v ⊆ fields.map (fun f => f._id) := by
    intro x hx
    obtain ⟨f, hf, rfl⟩ := hids x hx
    exact List.mem_map_of_mem _ hf
  calc v.length ≤ (fields.map (fun f => f._id)).length :=
        (hnd.subperm hsub).length_le
    _ = fields.length := List.length_map _ _

theorem runSweeps_good
    (submission : List LogicFieldSchemaOrResponse) (groups : GroupedLogic)
    (fields : List IFieldSchema) :
    ∀ (fuel : Nat) (v : List String),
      GoodVisible submission groups fields v →
      GoodVisible submission groups fields
        (runSweeps submission groups fields fuel v) := by
  intro fuel
  induction fuel with
  | zero => intro v h; exact h
  | succ n ih =>
    intro v h
    simp only [runSweeps]
    by_cases hc : (sweepOnce submission groups fields v).2 = true
    · rw [if_pos hc]
      exact ih _ (sweepFold_good submission groups fields fields (v, false)
        (fun f hf => hf) h)
    · rw [if_neg hc]
      exact sweepFold_good submission groups fields fields (v, false)
        (fun f hf => hf) h

theorem runSweeps_prefixed
    (submission : List LogicFieldSchemaOrResponse) (groups : GroupedLogic)
    (fields : List IFieldSchema) (S : List String)
    (hclosed : ∀ f ∈ fields,
      fieldLogicSatisfied submission groups S f = true → f._id ∈ S) :
    ∀ (fuel : Nat) (v : List String), (∀ x ∈ v, x ∈ S) →
      ∀ x ∈ runSweeps submission groups fields fuel v, x ∈ S := by
  intro fuel
  induction fuel with
  | zero => intro v hsub; exact hsub
  | succ n ih =>
    intro v hsub
    simp only [runSweeps]
    by_cases hc : (sweepOnce submission groups fields v).2 = true
    · rw [if_pos hc]
      exact ih _ (sweepFold_prefixed submission groups S fields (v, false)
        hclosed hsub)
    · rw [if_neg hc]
      exact sweepFold_prefixed submission groups S fields (v, false)
        hclosed hsub

theorem runSweeps_fix
    (submission : List LogicFieldSchemaOrResponse) (groups : GroupedLogic)
    (fields : List IFieldSchema) :
    ∀ (fuel : Nat) (v : List String),
      v.Nodup →
      (∀ x ∈ v, ∃ f, f ∈ fields ∧ x = f._id) →
      fields.length + 1 ≤ fuel + v.length →
      sweepOnce submission groups fields
          (runSweeps submission groups fields fuel v)
        = (runSweeps submission groups fields fuel v, false) := by
  intro fuel
  induction fuel with
  | zero =>
    intro v hnd hids hlen
    exfalso
    have := visible_length_le fields v hnd hids
    omega
  | succ n ih =>
    intro v hnd hids hlen
    simp only [runSweeps]
    by_cases hc : (sweepOnce submission groups fields v).2 = true
    · rw [if_pos hc]
      refine ih (sweepOnce submission groups fields v).1 ?_ ?_ ?_
      · exact sweepFold_nodup submission groups fields (v, false) hnd
      · exact sweepFold_ids submission groups fields fields (v, false)
          (fun f hf => hf) hids
      · have hg := (sweepFold_growth submission groups fields (v, false)).2 hc
        rcases hg with h' | h'
        · exact absurd h' (by simp)
        · have hlt : v.length
              < (sweepOnce submission groups fields v).1.length := h'
          omega
    · rw [if_neg hc]
      rw [Bool.not_eq_true] at hc
      have h' : (fields.foldl (sweepStep submission groups) (v, false)).2
          = false := hc
      have heq := (sweepFold_of_flag_false submission groups fields
        (v, false) h').1
      show sweepOnce submission groups fields
          (fields.foldl (sweepStep submission groups) (v, false)).1
        = ((fields.foldl (sweepStep submission groups) (v, false)).1, false)
      rw [heq]
      exact heq

theorem runSweeps_extra
    (submission : List LogicFieldSchemaOrResponse) (groups : GroupedLogic)
    (fields : List IFieldSchema) :
    ∀ (fuel extra : Nat) (v : List String),
      v.Nodup →
      (∀ x ∈ v, ∃ f, f ∈ fields ∧ x = f._id) →
      fields.length + 1 ≤ fuel + v.length →
      runSweeps submission groups fields (fuel + extra) v
        = runSweeps submission groups fields fuel v := by
  intro fuel
  induction fuel with
  | zero =>
    intro extra v hnd hids hlen
    exfalso
    have := visible_length_le fields v hnd hids
    omega
  | succ n ih =>
    intro extra v hnd hids hlen
    rw [show n + 1 + extra = (n + extra) + 1 from by omega]
    simp only [runSweeps]
    by_cases hc : (sweepOnce submission groups fields v).2 = true
    · rw [if_pos hc, if_pos hc]
      refine ih extra (sweepOnce submission groups fields v).1 ?_ ?_ ?_
      · exact sweepFold_nodup submission groups fields (v, false) hnd
      · exact sweepFold_ids submission groups fields fields (v, false)
          (fun f hf => hf) hids
      · have hg := (sweepFold_growth submission groups fields (v, false)).2 hc
        rcases hg with h' | h'
        · exact absurd h' (by simp)
        · have hlt : v.length
              < (sweepOnce submission groups fields v).1.length := h'
          omega
    · rw [if_neg hc, if_neg hc]

theorem getVisibleFieldIds_good
    (submission : List LogicFieldSchemaOrResponse) (form : IFormDocument) :
    GoodVisible submission (groupLogicUnitsByField form) form.form_fields
      (getVisibleFieldIds submission form) :=
  runSweeps_good submission (groupLogicUnitsByField form) form.form_fields
    (form.form_fields.length + 1) []
    (fun x hx => absurd hx (List.not_mem_nil x))

theorem getVisibleFieldIds_fix
    (submission : List LogicFieldSchemaOrResponse) (form : IFormDocument) :
    sweepOnce submission (groupLogicUnitsByField form) form.form_fields
        (getVisibleFieldIds submission form)
      = (getVisibleFieldIds submission form, false) :=
  runSweeps_fix submission (groupLogicUnitsByField form) form.form_fields
    (form.form_fields.length + 1) [] List.nodup_nil
    (fun x hx => absurd hx (List.not_mem_nil x)) (by simp)

/-- C2: `getVisibleFieldIds` returns exactly the least fixed point of the
per-sweep visibility rule: the result contains only ids of form fields; a
form field is in the result iff it has no entry in the logic index or some of
its AND-groups is satisfied against the result (every condition's subject
entry visible and fulfilling the condition); and the result is contained in
every set closed under that rule. -/
theorem getVisibleFieldIds_least_fixed_point
    (submission : List LogicFieldSchemaOrResponse) (form : IFormDocument) :
    (∀ x ∈ getVisibleFieldIds submission form,
      ∃ f, f ∈ form.form_fields ∧ x = f._id) ∧
    (∀ f ∈ form.form_fields,
      (f._id ∈ getVisibleFieldIds submission form ↔
        fieldLogicSatisfied submission (groupLogicUnitsByField form)
          (getVisibleFieldIds submission form) f = true)) ∧
    (∀ S : List String,
      (∀ f ∈ form.form_fields,
        fieldLogicSatisfied submission (groupLogicUnitsByField form) S f
            = true →
          f._id ∈ S) →
      ∀ x ∈ getVisibleFieldIds submission form, x ∈ S) := by
  refine ⟨?_, ?_, ?_⟩
  · intro x hx
    obtain ⟨f, hf, hid, _⟩ := getVisibleFieldIds_good submission form x hx
    exact ⟨f, hf, hid⟩
  · intro f hf
    constructor
    · intro hmem
      obtain ⟨f', hf', hid, hsat⟩ :=
        getVisibleFieldIds_good submission form f._id hmem
      rw [fieldLogicSatisfied_congr submission (groupLogicUnitsByField form)
        (getVisibleFieldIds submission form) hid]
      exact hsat
    · intro hsat
      have hflag : (form.form_fields.foldl
          (sweepStep submission (groupLogicUnitsByField form))
          (getVisibleFieldIds submission form, false)).2 = false :=
        congrArg Prod.snd (getVisibleFieldIds_fix submission form)
      have hnc := (sweepFold_of_flag_false submission
        (groupLogicUnitsByField form) form.form_fields
        (getVisibleFieldIds submission form, false) hflag).2 f hf
      by_contra hnotmem
      apply hnc
      refine (and_eq_true_iff _ _).mpr ⟨?_, hsat⟩
      have hcon : (getVisibleFieldIds submission form).contains f._id
          = false := by
        cases hc : (getVisibleFieldIds submission form).contains f._id
        · rfl
        · exact absurd (List.elem_iff.mp hc) hnotmem
      rw [hcon]
      rfl
  · intro S hclosed x hx
    exact runSweeps_prefixed submission (groupLogicUnitsByField form)
      form.form_fields S hclosed (form.form_fields.length + 1) []
      (fun y hy => absurd hy (List.not_mem_nil y)) x hx

/-- C2 (witness): the spec's end-to-end scenario; the fixpoint iff makes the
logically-shown field visible. -/
theorem getVisibleFieldIds_least_fixed_point_witness :
    "e1" ∈ getVisibleFieldIds
      [{ _id := "d1", fieldType := BasicField.Dropdown,
         answer := some "Option A" }]
      { _id := "fA",
        form_fields := [⟨"d1", BasicField.Dropdown⟩,
          ⟨"e1", BasicField.Email⟩],
        form_logics := [⟨LogicType.ShowFields,
          [⟨"d1", LogicConditionState.Equal, ConditionValue.str "Option A"⟩],
          ["e1"]⟩] } := by
  refine ((getVisibleFieldIds_least_fixed_point
    [{ _id := "d1", fieldType := BasicField.Dropdown,
       answer := some "Option A" }]
    { _id := "fA",
      form_fields := [⟨"d1", BasicField.Dropdown⟩,
        ⟨"e1", BasicField.Email⟩],
      form_logics := [⟨LogicType.ShowFields,
        [⟨"d1", LogicConditionState.Equal, ConditionValue.str "Option A"⟩],
        ["e1"]⟩] }).2.1 ⟨"e1", BasicField.Email⟩ ?_).mpr ?_
  · exact List.mem_cons_of_mem _ (List.mem_cons_self _ _)
  · decide

/-- C3: the sweep loop of the Visibility Resolver terminates within
`|form_fields| + 1` full sweeps: granting any extra fuel beyond that bound
does not change the result, the result is a fixed point of a sweep (the
`|form_fields| + 1`-th sweep at the latest reports no change), and any sweep
that sets the changed flag strictly grows the visible set. -/
theorem getVisibleFieldIds_terminates
    (submission : List LogicFieldSchemaOrResponse) (form : IFormDocument) :
    (∀ extra : Nat,
      runSweeps submission (groupLogicUnitsByField form) form.form_fields
          (form.form_fields.length + 1 + extra) []
        = getVisibleFieldIds submission form) ∧
    sweepOnce submission (groupLogicUnitsByField form) form.form_fields
        (getVisibleFieldIds submission form)
      = (getVisibleFieldIds submission form, false) ∧
    (∀ v : List String,
      (sweepOnce submission (groupLogicUnitsByField form)
          form.form_fields v).2 = true →
      v.length < (sweepOnce submission (groupLogicUnitsByField form)
          form.form_fields v).1.length) := by
  refine ⟨?_, getVisibleFieldIds_fix submission form, ?_⟩
  · intro extra
    exact runSweeps_extra submission (groupLogicUnitsByField form)
      form.form_fields (form.form_fields.length + 1) extra []
      List.nodup_nil (fun x hx => absurd hx (List.not_mem_nil x)) (by simp)
  · intro v hchanged
    have hg := (sweepFold_growth submission (groupLogicUnitsByField form)
      form.form_fields (v, false)).2 hchanged
    rcases hg with h' | h'
    · exact absurd h' (by simp)
    · exact h'

/-- C3 (witness): for a one-field form the first sweep changes the set and
grows it, and one extra unit of fuel is already idle. -/
theorem getVisibleFieldIds_terminates_witness :
    runSweeps []
        (groupLogicUnitsByField
          { _id := "f", form_fields := [⟨"a", BasicField.Email⟩],
            form_logics := [] })
        [⟨"a", BasicField.Email⟩] 3 []
      = getVisibleFieldIds []
          { _id := "f", form_fields := [⟨"a", BasicField.Email⟩],
            form_logics := [] } ∧
    ([] : List String).length
      < (sweepOnce []
          (groupLogicUnitsByField
            { _id := "f", form_fields := [⟨"a", BasicField.Email⟩],
              form_logics := [] })
          [⟨"a", BasicField.Email⟩] []).1.length :=
  ⟨(getVisibleFieldIds_terminates []
      { _id := "f", form_fields := [⟨"a", BasicField.Email⟩],
        form_logics := [] }).1 1,
   (getVisibleFieldIds_terminates []
      { _id := "f", form_fields := [⟨"a", BasicField.Email⟩],
        form_logics := [] }).2.2 [] (by decide)⟩

/-- C10: every returned visible id is the id of one of the form's own fields
even when the answer set contains entries foreign to the form, and a
condition whose subject has no entry in the submission never lets its logic
unit be satisfied. -/
theorem getVisibleFieldIds_subset_and_absent_subject :
    (∀ (submission : List LogicFieldSchemaOrResponse) (form : IFormDocument),
      ∀ x ∈ getVisibleFieldIds submission form,
        ∃ f, f ∈ form.form_fields ∧ x = f._id) ∧
    (∀ (submission : List LogicFieldSchemaOrResponse)
        (logicUnit : List IConditionSchema) (visibleFieldIds : List String)
        (condition : IConditionSchema),
      condition ∈ logicUnit →
      findConditionField submission condition.field = none →
      isLogicUnitSatisfied submission logicUnit visibleFieldIds = false) := by
  constructor
  · intro submission form x hx
    obtain ⟨f, hf, hid, _⟩ := getVisibleFieldIds_good submission form x hx
    exact ⟨f, hf, hid⟩
  · intro submission logicUnit visibleFieldIds condition hcond hfind
    rw [← Bool.not_eq_true]
    intro hsat
    unfold isLogicUnitSatisfied at hsat
    rw [List.all_eq_true] at hsat
    have := hsat condition hcond
    rw [hfind] at this
    exact absurd this (by simp)

/-- C10 (witness): a submission containing only an entry foreign to the form
still yields a visible set drawn from the form's fields, and a unit whose
condition subject is missing from the submission is unsatisfied. -/
theorem getVisibleFieldIds_subset_and_absent_subject_witness :
    (∃ f, f ∈ [(⟨"a", BasicField.Email⟩ : IFieldSchema)] ∧ "a" = f._id) ∧
    isLogicUnitSatisfied []
      [⟨"z", LogicConditionState.Equal, ConditionValue.str "1"⟩] []
      = false :=
  ⟨getVisibleFieldIds_subset_and_absent_subject.1
      [{ _id := "zz", fieldType := BasicField.Number, answer := some "7" }]
      { _id := "f", form_fields := [⟨"a", BasicField.Email⟩],
        form_logics := [] }
      "a" (by decide),
   getVisibleFieldIds_subset_and_absent_subject.2 []
      [⟨"z", LogicConditionState.Equal, ConditionValue.str "1"⟩] []
      ⟨"z", LogicConditionState.Equal, ConditionValue.str "1"⟩
      (List.mem_singleton.mpr rfl) rfl⟩

/-! ## Submission Gate lemmas -/

theorem find?_filter {α : Type} (l : List α) (p q : α → Bool) :
    (l.filter p).find? q = (l.filter (fun a => p a && q a)).head? := by
  induction l with
  | nil => rfl
  | cons a as ih =>
    rw [List.filter_cons, List.filter_cons]
    by_cases hp : p a = true
    · rw [if_pos hp]
      by_cases hq : q a = true
      · rw [List.find?_cons_of_pos _ hq,
          if_pos (show (p a && q a) = true from by rw [hp, hq]; rfl)]
        rfl
      · rw [Bool.not_eq_true] at hq
        rw [List.find?_cons_of_neg _ (by rw [hq]; simp),
          if_neg (show ¬((p a && q a) = true) from by rw [hp, hq]; simp)]
        exact ih
    · rw [Bool.not_eq_true] at hp
      rw [if_neg (by rw [hp]; simp),
        if_neg (show ¬((p a && q a) = true) from by rw [hp]; simp)]
      exact ih

/-- C6: with a supplied visible set, the Submission Gate returns exactly the
head of the authoring-ordered list of PreventSubmit units whose condition
subjects all exist in the form and whose conditions are all satisfied with
visible subjects — so the first blocking unit, and `none` when no unit
blocks; and when no visible set is supplied it uses the one computed by the
Visibility Resolver. -/
theorem getLogicUnitPreventingSubmit_spec
    (submission : List LogicFieldSchemaOrResponse) (form : IFormDocument)
    (visibleFieldIds : List String) :
    getLogicUnitPreventingSubmit submission form (some visibleFieldIds)
      = (form.form_logics.filter (fun u =>
          (isPreventSubmitLogic u
            && allConditionsExist u.conditions
              (form.form_fields.map (fun field => field._id)))
          && isLogicUnitSatisfied submission u.conditions
              visibleFieldIds)).head?
    ∧ getLogicUnitPreventingSubmit submission form none
      = getLogicUnitPreventingSubmit submission form
          (some (getVisibleFieldIds submission form)) := by
  constructor
  · show ((form.form_logics.filter (fun formLogic =>
        isPreventSubmitLogic formLogic
          && allConditionsExist formLogic.conditions
            (form.form_fields.map (fun field => field._id)))).find?
        (fun logicUnit => isLogicUnitSatisfied submission
          logicUnit.conditions visibleFieldIds)) = _
    rw [find?_filter]
  · rfl

end FormLogic
